import Mathlib

/-!
Shallow embedding of the utility core of `lib/internal/util.js`
(promisify, deprecate, convertToValidSignal, defineLazyProperties,
defineReplaceableLazyAttribute, WeakReference), with theorems checking
the specification's claims against the code.
-/

namespace NodeUtil

/-- JavaScript values as far as the utility core inspects them:
`undefined`, `null`, booleans, (integer) numbers, strings and plain
objects represented as insertion-ordered field lists. -/
inductive JSVal where
  | undef : JSVal
  | nullv : JSVal
  | boolV : Bool → JSVal
  | numV : Int → JSVal
  | strV : String → JSVal
  | objV : List (String × JSVal) → JSVal

/-- JavaScript truthiness for the fragment of values in `JSVal`
(`undefined`, `null`, `false`, `0` and `""` are falsy; objects are
always truthy). -/
def truthy : JSVal → Bool
  | .undef => false
  | .nullv => false
  | .boolV b => b
  | .numV n => n != 0
  | .strV s => s != ""
  | .objV _ => true

/-- Outcome of the promise returned by a promisified call: it is either
rejected with an error value or fulfilled with a value. -/
inductive Settlement where
  | rejected : JSVal → Settlement
  | fulfilled : JSVal → Settlement

/-- One JavaScript property assignment `obj[k] = v` on an
insertion-ordered field list: an existing key is overwritten in place,
a new key is appended. -/
def objAssign (fields : List (String × JSVal)) (k : String) (v : JSVal) :
    List (String × JSVal) :=
  if fields.any (·.1 = k) then
    fields.map (fun p => if p.1 = k then (k, v) else p)
  else
    fields ++ [(k, v)]

/-- The object built by promisify's injected callback when
`argumentNames` is present and more than one value was produced:
`for (let i = 0; i < argumentNames.length; i++) obj[argumentNames[i]] = values[i]`,
where `values[i]` is `undefined` past the end of `values`. -/
def promisifyObj (names : List String) (values : List JSVal) :
    List (String × JSVal) :=
  (List.range names.length).foldl
    (fun fields i => objAssign fields (names.getD i "") (values.getD i .undef))
    []

/-- The callback promisify appends to the argument list
(`(err, ...values) => { ... }` in `promisify`): a truthy `err` rejects
with `err`; otherwise, with declared argument names and more than one
value, it resolves with the named object, else with `values[0]`. -/
def promisifyCallback (argumentNames : Option (List String)) (err : JSVal)
    (values : List JSVal) : Settlement :=
  if truthy err then
    .rejected err
  else if argumentNames.isSome && values.length > 1 then
    .fulfilled (.objV (promisifyObj (argumentNames.getD []) values))
  else
    .fulfilled (values.getD 0 .undef)

/-! ### Signal name normalization -/

/-- The platform signal table `internalBinding('constants').os.signals`:
an insertion-ordered mapping from symbolic signal name to number. -/
abbrev Signals := List (String × Int)

/-- Property read `signals[name]` (absent key reads as `undefined`,
modelled by `none`). -/
def signalsGet (sigs : Signals) (name : String) : Option Int :=
  (sigs.find? (·.1 = name)).map (·.2)

/-- Lookup `getSignalsToNamesMapping()[n]`: the map is built by iterating
`for (const key in signals) mapping[signals[key]] = key`, so a number
that several names share ends up bound to the last such name. -/
def signalsToNamesMapping (sigs : Signals) (n : Int) : Option String :=
  (sigs.reverse.find? (·.2 = n)).map (·.1)

/-- Inputs to `convertToValidSignal`: a number, a string, or any other
value (tagged to keep errors distinguishable). -/
inductive SigVal where
  | num : Int → SigVal
  | str : String → SigVal
  | other : Nat → SigVal
deriving DecidableEq, Repr

/-- Truthiness of a possibly-absent property value holding a string. -/
def truthyStrProp : Option String → Bool
  | some s => s != ""
  | none => false

/-- Character-wise `StringPrototypeToUpperCase` (signal names are
ASCII, where JavaScript and `Char.toUpper` agree). -/
def jsToUpper (s : String) : String := ⟨s.data.map Char.toUpper⟩

/-- The function `convertToValidSignal(signal)`: a number is returned unchanged when
the lazily built number-to-name map has a truthy entry for it; a string
is upper-cased and looked up in `signals`, returning the number when
that read is truthy; everything else throws `ERR_UNKNOWN_SIGNAL(signal)`,
modelled as `.error` carrying the offending input. -/
def convertToValidSignal (sigs : Signals) : SigVal → Except SigVal Int
  | .num n =>
    if truthyStrProp (signalsToNamesMapping sigs n) then .ok n
    else .error (.num n)
  | .str s =>
    match signalsGet sigs (jsToUpper s) with
    | some v => if v != 0 then .ok v else .error (.str s)
    | none => .error (.str s)
  | .other t => .error (.other t)

/-! ### Deprecation wrappers

`deprecate`/`getDeprecationWarningEmitter`: each wrapper closes over a
`warned` flag and an optional `code`; a module-level `codesWarned` set is
shared by every wrapper in the process. -/

/-- Mutable state of the deprecation machinery: the per-wrapper `warned`
closure flags (indexed by wrapper number) and the process-wide
`codesWarned` set. -/
structure DepState where
  warned : Nat → Bool
  codesWarned : List String

/-- State at process start: no wrapper has warned, no code consumed. -/
def DepState.init : DepState := ⟨fun _ => false, []⟩

/-- One invocation of wrapper `i` (whose code is `codes i`). `gate` is
the value of `!process.noDeprecation && shouldEmitWarning()` at call
time; when it is false nothing happens (the `warned` flag is not even
set). Returns the new state and the emitted warnings as
(wrapper, code) pairs. -/
def depInvoke (codes : Nat → Option String) (s : DepState) (i : Nat)
    (gate : Bool) : DepState × List (Nat × Option String) :=
  if !s.warned i && gate then
    let s1 : DepState := ⟨fun j => if j = i then true else s.warned j, s.codesWarned⟩
    match codes i with
    | some c =>
      if c ∈ s1.codesWarned then (s1, [])
      else ({ s1 with codesWarned := c :: s1.codesWarned }, [(i, some c)])
    | none => (s1, [(i, none)])
  else (s, [])

/-- Run a sequence of wrapper invocations, collecting all emitted
warnings in order. Each trace element is (wrapper index, gate). -/
def depRun (codes : Nat → Option String) (s : DepState) :
    List (Nat × Bool) → DepState × List (Nat × Option String)
  | [] => (s, [])
  | (i, g) :: rest =>
    let step := depInvoke codes s i g
    let tail := depRun codes step.1 rest
    (tail.1, step.2 ++ tail.2)

/-! ### One call of a promisified function -/

/-- What one invocation of the wrapped `original` does, as far as the
promisified wrapper observes it: whether `isPromise` holds of its
synchronous return value, and the (err, values) invocation of the
injected callback, if the callback fires at all. -/
structure OriginalBehavior where
  syncReturnIsPromise : Bool
  callback : Option (JSVal × List JSVal)

/-- Observable events of one call of the promisified wrapper, in order:
`original` is applied, then — only when its synchronous return value is
a promise — the DEP0174 warning is emitted. -/
inductive CallEvent where
  | invokeOriginal : CallEvent
  | emitWarn : CallEvent
deriving DecidableEq, Repr

/-- Event trace of one call of the promisified wrapper `fn`. -/
def promisifiedCallEvents (b : OriginalBehavior) : List CallEvent :=
  .invokeOriginal :: (if b.syncReturnIsPromise then [.emitWarn] else [])

/-- Settlement of the promise returned by one promisified call: it is
decided solely by the injected callback (still pending if the callback
never fires). -/
def promisifiedCallSettlement (argumentNames : Option (List String))
    (b : OriginalBehavior) : Option Settlement :=
  b.callback.map fun ev => promisifyCallback argumentNames ev.1 ev.2

/-! ### promisify: custom implementations and identity

Function objects are modelled by ids in a heap recording each
function's `kCustomPromisifiedSymbol` property. -/

/-- Values as far as promisify's top level inspects them: `undefined`
(absent marker), a non-function value with its truthiness, or a
function object identified by its heap id. -/
inductive PVal where
  | undef : PVal
  | nonFunc : Bool → PVal
  | func : Nat → PVal
deriving DecidableEq, Repr

/-- Truthiness of a `PVal` (functions are always truthy). -/
def PVal.truthyP : PVal → Bool
  | .undef => false
  | .nonFunc t => t
  | .func _ => true

/-- The test `validateFunction` performs: `typeof v === 'function'`. -/
def PVal.isCallable : PVal → Bool
  | .func _ => true
  | _ => false

/-- Heap of function objects: a fresh-id allocator and each function's
own `kCustomPromisifiedSymbol` property (`none` when the function has
no own marker; prototype chains are not modelled). -/
structure FnHeap where
  next : Nat
  custom : Nat → Option PVal

/-- The property read `fn[kCustomPromisifiedSymbol]`: an absent own
property reads as `undefined`. -/
def customRead (h : FnHeap) (fid : Nat) : PVal :=
  ((h.custom fid).getD .undef : PVal)

/-- The synchronous throws of `promisify`'s top level: a non-callable
`original` (first `validateFunction`), or a truthy but non-callable
custom marker (second `validateFunction`). -/
inductive PromisifyErr where
  | notCallableOriginal : PromisifyErr
  | notCallableCustom : PromisifyErr
deriving DecidableEq, Repr

/-- Top level of `promisify(original)`: validate `original`; if its
custom marker is truthy, validate it and return it with the marker
re-pointed at itself. Otherwise allocate the adapted function: its
marker is first defined to point at itself, but the closing
`Object.defineProperties(fn, descriptors)` then copies every own
property descriptor of `original` over it — so when `original` carries
an own (necessarily falsy here) marker, that value overwrites the
self-pointing marker. Returns the updated heap and the resulting
function. -/
def promisify (h : FnHeap) : PVal → Except PromisifyErr (FnHeap × PVal)
  | .func fid =>
    let c := customRead h fid
    if c.truthyP then
      match c with
      | .func cid =>
        .ok ({ h with custom := fun j => if j = cid then some (.func cid) else h.custom j },
          .func cid)
      | _ => .error .notCallableCustom
    else
      .ok ({ next := h.next + 1,
             custom := fun j =>
               if j = h.next then
                 match h.custom fid with
                 | some v => some v
                 | none => some (.func h.next)
               else h.custom j },
        .func h.next)
  | _ => .error .notCallableOriginal

/-! ### Lazy properties -/

/-- A loaded module: an ordered field list; an absent key reads as
`undefined`. -/
abbrev Module := List (String × JSVal)

/-- Property read `mod[key]`. -/
def moduleGet (m : Module) (k : String) : JSVal :=
  (((m.find? (·.1 = k)).map (·.2)).getD .undef : JSVal)

/-- The property slot for one key handled by `defineLazyProperties`:
either the installed accessor (carrying the closure variable
`lazyLoadedValue`, initially `undefined`) or the plain data property
that `set` installs in its place. -/
inductive LazySlot where
  | accessor : JSVal → LazySlot
  | dataProp : JSVal → LazySlot

/-- State of one `defineLazyProperties(target, id, keys)` registration:
the slot of every key, the shared closure variable `mod`, and an
instrumentation counter of how many times `require(id)` actually ran. -/
structure LazyState where
  slots : String → LazySlot
  modCache : Option Module
  attempts : Nat

/-- State right after registration: every key holds the accessor with
`lazyLoadedValue === undefined`, the module not yet loaded. -/
def LazyState.init : LazyState := ⟨fun _ => .accessor .undef, none, 0⟩

/-- Tail of `get()` once `mod` is available: if `lazyLoadedValue` is
`undefined`, read `mod[key]`, replace the property by a plain data
property via `set`, and return it; otherwise return `lazyLoadedValue`. -/
def lazyGetBody (m : Module) (lv : JSVal) (s : LazyState) (k : String) :
    Except JSVal JSVal × LazyState :=
  match lv with
  | .undef =>
    let v := moduleGet m k
    (.ok v, { s with slots := fun q => if q = k then .dataProp v else s.slots q })
  | v => (.ok v, s)

/-- A read of `target[k]`: a data property returns its value; the
accessor runs `get()`, whose first statement is `mod ??= require(id)`
— the loader (indexed by attempt number, so a retry is a new attempt)
may throw, in which case the exception propagates and no closure
variable changes. -/
def lazyRead (loader : Nat → Except JSVal Module) (s : LazyState)
    (k : String) : Except JSVal JSVal × LazyState :=
  match s.slots k with
  | .dataProp v => (.ok v, s)
  | .accessor lv =>
    match s.modCache with
    | some m => lazyGetBody m lv s k
    | none =>
      match loader s.attempts with
      | .error e => (.error e, { s with attempts := s.attempts + 1 })
      | .ok m =>
        lazyGetBody m lv { s with modCache := some m, attempts := s.attempts + 1 } k

/-- Run a sequence of property reads, keeping only the final state. -/
def lazyRunReads (loader : Nat → Except JSVal Module) (s : LazyState) :
    List String → LazyState
  | [] => s
  | k :: rest => lazyRunReads loader (lazyRead loader s k).2 rest

/-- Whether a value is `undefined` or `null`, the guard of JavaScript's nullish assignment. -/
def isNullish : JSVal → Bool
  | .undef => true
  | .nullv => true
  | _ => false

/-- Closure state for one key of `defineReplaceableLazyAttribute`: the
`value` variable and the `setterCalled` flag. -/
structure ReplSlot where
  value : JSVal
  setterCalled : Bool

/-- State of one `defineReplaceableLazyAttribute(target, id, keys)`
registration (the optional `check` callback is modelled as absent):
per-key closures, the shared `mod`, and the attempt counter. -/
structure ReplState where
  slots : String → ReplSlot
  modCache : Option Module
  attempts : Nat

/-- State right after registration. -/
def ReplState.init : ReplState := ⟨fun _ => ⟨.undef, false⟩, none, 0⟩

/-- Tail of the replaceable `get()` once `mod` is available:
`value ??= mod[key]; return value`. -/
def replGetBody (m : Module) (sl : ReplSlot) (s : ReplState) (k : String) :
    Except JSVal JSVal × ReplState :=
  if isNullish sl.value then
    let v := moduleGet m k
    (.ok v,
      { s with slots := fun q => if q = k then { sl with value := v } else s.slots q })
  else (.ok sl.value, s)

/-- A read of a replaceable lazy attribute: if the setter ran, return
the stored value; otherwise `mod ??= require(id)` (which may throw,
propagating with no state change), then `value ??= mod[key]`. -/
def replRead (loader : Nat → Except JSVal Module) (s : ReplState)
    (k : String) : Except JSVal JSVal × ReplState :=
  if (s.slots k).setterCalled then (.ok (s.slots k).value, s)
  else
    match s.modCache with
    | some m => replGetBody m (s.slots k) s k
    | none =>
      match loader s.attempts with
      | .error e => (.error e, { s with attempts := s.attempts + 1 })
      | .ok m =>
        replGetBody m (s.slots k) { s with modCache := some m, attempts := s.attempts + 1 } k

/-! ### WeakReference -/

/-- Observable state of a `WeakReference`: the reference count (a
JavaScript number, so it can go negative if misused) and the strong
hold `#strong`. The weak handle itself is external: each operation that
dereferences it receives the current `deref()` result (`none` once the
target has been collected) as an input. -/
structure WeakRefState (T : Type) where
  refCount : Int
  strong : Option T

/-- State after `new WeakReference(object)`: count 0, no strong hold. -/
def WeakRefState.start {T : Type} : WeakRefState T := ⟨0, none⟩

/-- Method `incRef()`: increment; on reaching exactly 1, capture the current
`deref()` result as the strong hold when the target is still alive.
Returns the new state and the returned count. -/
def incRef {T : Type} (deref : Option T) (s : WeakRefState T) :
    WeakRefState T × Int :=
  let c := s.refCount + 1
  let strong :=
    if c = 1 then
      match deref with
      | some d => some d
      | none => s.strong
    else s.strong
  (⟨c, strong⟩, c)

/-- Method `decRef()`: decrement; on reaching exactly 0, release the strong
hold. Returns the new state and the returned count. -/
def decRef {T : Type} (s : WeakRefState T) : WeakRefState T × Int :=
  let c := s.refCount - 1
  (⟨c, if c = 0 then none else s.strong⟩, c)

/-- Method `get()`: always dereferences the weak handle directly, ignoring the
count and the strong hold. -/
def WeakRefState.get {T : Type} (deref : Option T) (_s : WeakRefState T) :
    Option T := deref

/-- Apply a list of `incRef` calls, each with the `deref()` result the
weak handle would produce at that moment. -/
def runIncs {T : Type} (derefs : List (Option T)) (s : WeakRefState T) :
    WeakRefState T :=
  derefs.foldl (fun t d => (incRef d t).1) s

/-- Apply `decRef` `n` times, keeping the state. -/
def decIter {T : Type} : Nat → WeakRefState T → WeakRefState T
  | 0, s => s
  | n + 1, s => decIter n (decRef s).1

/-- An operation on a `WeakReference`; increments carry the `deref()`
result observed at that moment. -/
inductive WOp (T : Type) where
  | inc : Option T → WOp T
  | dec : WOp T

/-- One operation applied to the state. -/
def wstep {T : Type} (s : WeakRefState T) : WOp T → WeakRefState T
  | .inc d => (incRef d s).1
  | .dec => (decRef s).1

/-- Run a trace of operations. -/
def wrun {T : Type} (s : WeakRefState T) (ops : List (WOp T)) : WeakRefState T :=
  ops.foldl wstep s

/-- The caller contract: starting from count `c`, `decRef` is never
invoked while the count is 0 (or below). -/
def wellFormedFrom {T : Type} : Int → List (WOp T) → Bool
  | _, [] => true
  | c, .inc _ :: rest => wellFormedFrom (c + 1) rest
  | c, .dec :: rest => decide (0 < c) && wellFormedFrom (c - 1) rest

/-- The specification's view of a trace, following its words: the
count together with the `deref()` result observed at the most recent
increment-from-zero ("the weak target was still alive at the most
recent increment-from-zero"), computed over the trace alone. -/
def specCountAnchor {T : Type} : Int → Option T → List (WOp T) → Int × Option T
  | c, a, [] => (c, a)
  | c, a, .inc d :: rest => specCountAnchor (c + 1) (if c = 0 then d else a) rest
  | c, a, .dec :: rest => specCountAnchor (c - 1) a rest

/-! ## Theorems -/

theorem runIncs_refCount {T : Type} (derefs : List (Option T))
    (s : WeakRefState T) :
    (runIncs derefs s).refCount = s.refCount + derefs.length := by
  induction derefs generalizing s with
  | nil => simp [runIncs]
  | cons d ds ih =>
    show (runIncs ds (incRef d s).1).refCount = _
    rw [ih]
    simp [incRef]
    omega

theorem decIter_refCount {T : Type} (n : Nat) (s : WeakRefState T) :
    (decIter n s).refCount = s.refCount - n := by
  induction n generalizing s with
  | zero => simp [decIter]
  | succ m ih =>
    show (decIter m (decRef s).1).refCount = _
    rw [ih]
    simp [decRef]
    omega

/-- C5: after N calls to `incRef` followed by N calls to `decRef`
(N = `derefs.length + 1 ≥ 1`, each increment observing an arbitrary
`deref()` result), the final `decRef` returns 0, and a subsequent
`get()` still returns the direct `deref()` result, independent of the
reference count. -/
theorem weakref_inc_dec_balance {T : Type} (d : Option T)
    (derefs : List (Option T)) (dGet : Option T) :
    (decRef (decIter derefs.length (runIncs (d :: derefs) WeakRefState.start))).2 = 0 ∧
    WeakRefState.get dGet
      (decRef (decIter derefs.length (runIncs (d :: derefs) WeakRefState.start))).1 = dGet := by
  constructor
  · show (decIter derefs.length (runIncs (d :: derefs) WeakRefState.start)).refCount - 1 = 0
    rw [decIter_refCount, runIncs_refCount]
    simp [WeakRefState.start]
  · rfl

/-- C6: a call of a promisified function whose underlying function
synchronously returns a promise emits the DEP0174 diagnostic at most
once (exactly once, after the invocation of the original completes),
and the settlement of the returned promise is exactly what the injected
callback dictates, unaltered by the diagnostic. -/
theorem promisified_double_wrap_diagnostic (names : Option (List String))
    (b : OriginalBehavior) (e : JSVal) (vs : List JSVal) :
    (promisifiedCallEvents b).count .emitWarn ≤ 1 ∧
    promisifiedCallEvents { b with syncReturnIsPromise := true } =
      [.invokeOriginal, .emitWarn] ∧
    promisifiedCallSettlement names { b with syncReturnIsPromise := true } =
      promisifiedCallSettlement names b ∧
    promisifiedCallSettlement names
        { syncReturnIsPromise := true, callback := some (e, vs) } =
      some (promisifyCallback names e vs) := by
  refine ⟨?_, rfl, rfl, rfl⟩
  unfold promisifiedCallEvents
  cases b.syncReturnIsPromise <;> simp [List.count_cons]

/-- C7 counterexample: `promisify` throws synchronously (the second
`validateFunction`) on a callable argument whose custom-promisify
marker is truthy but not callable, refuting "promisify itself throws
synchronously only when its argument is not callable". -/
theorem promisify_throws_on_callable :
    PVal.isCallable (.func 0) = true ∧
    promisify ⟨1, fun j => if j = 0 then some (.nonFunc true) else none⟩ (.func 0) =
      .error .notCallableCustom :=
  ⟨rfl, rfl⟩

theorem promisify_func_eq (h : FnHeap) (fid : Nat) :
    promisify h (.func fid) =
      (if (customRead h fid).truthyP = true then
        match customRead h fid with
        | .func cid =>
          .ok ({ h with custom := fun j => if j = cid then some (.func cid) else h.custom j },
            .func cid)
        | _ => .error .notCallableCustom
      else
        .ok ({ next := h.next + 1,
               custom := fun j =>
                 if j = h.next then
                   match h.custom fid with
                   | some v => some v
                   | none => some (.func h.next)
                 else h.custom j },
          .func h.next)) := rfl

/-- C7 (amended): a promisified call fails only by rejecting — a truthy
error given to the injected callback rejects with exactly that error,
and only a truthy error produces a rejection — while `promisify` itself
throws synchronously exactly when its argument is not callable or the
argument's custom-promisify marker is truthy but not callable. -/
theorem promisify_reject_and_throw_conditions :
    (∀ (names : Option (List String)) (err : JSVal) (vs : List JSVal),
      truthy err = true → promisifyCallback names err vs = .rejected err) ∧
    (∀ (names : Option (List String)) (err e : JSVal) (vs : List JSVal),
      promisifyCallback names err vs = .rejected e →
        truthy err = true ∧ e = err) ∧
    (∀ (h : FnHeap) (v : PVal),
      (∃ er, promisify h v = .error er) ↔
        (v.isCallable = false ∨
          ∃ fid, v = .func fid ∧ (customRead h fid).truthyP = true ∧
            (customRead h fid).isCallable = false)) := by
  refine ⟨?_, ?_, ?_⟩
  · intro names err vs herr
    simp [promisifyCallback, herr]
  · intro names err e vs hres
    unfold promisifyCallback at hres
    by_cases herr : truthy err = true
    · simp [herr] at hres
      exact ⟨herr, hres.symm⟩
    · rw [if_neg (by simpa using herr)] at hres
      split at hres <;> simp_all
  · intro h v
    constructor
    · rintro ⟨er, her⟩
      cases v with
      | undef => exact Or.inl rfl
      | nonFunc t => exact Or.inl rfl
      | func fid =>
        refine Or.inr ⟨fid, rfl, ?_⟩
        rw [promisify_func_eq] at her
        by_cases ht : (customRead h fid).truthyP = true
        · rw [if_pos ht] at her
          refine ⟨ht, ?_⟩
          cases hc : customRead h fid with
          | func cid => rw [hc] at her; simp at her
          | undef => rw [hc] at ht; simp [PVal.truthyP] at ht
          | nonFunc t => simp [PVal.isCallable]
        · rw [if_neg ht] at her
          simp at her
    · rintro (hnc | ⟨fid, rfl, ht, hnf⟩)
      · cases v with
        | undef => exact ⟨.notCallableOriginal, rfl⟩
        | nonFunc t => exact ⟨.notCallableOriginal, rfl⟩
        | func fid => simp [PVal.isCallable] at hnc
      · refine ⟨.notCallableCustom, ?_⟩
        rw [promisify_func_eq, if_pos ht]
        cases hc : customRead h fid with
        | func cid => rw [hc] at hnf; simp [PVal.isCallable] at hnf
        | undef => rfl
        | nonFunc t => rfl

/-- C7 witness: a truthy error value rejects the promise with exactly
that error. -/
theorem promisify_reject_witness :
    truthy (.boolV true) = true ∧
    promisifyCallback none (.boolV true) [] = .rejected (.boolV true) :=
  ⟨rfl, promisify_reject_and_throw_conditions.1 none (.boolV true) [] rfl⟩

/-- C10 counterexample: for a callable (function 0) carrying an own
falsy custom-promisify marker (e.g. `f[util.promisify.custom] = 0`),
the adapter path is taken but the closing descriptor copy overwrites
the fresh adapter's self-pointing marker with the falsy value, so a
second `promisify` builds yet another adapter: promisify(promisify(f))
is a different function object from promisify(f). -/
theorem promisify_not_idempotent_on_falsy_marker :
    PVal.isCallable (.func 0) = true ∧
    promisify ⟨1, fun j => if j = 0 then some (.nonFunc false) else none⟩ (.func 0) =
      .ok (⟨2, fun j => if j = 1 then some (.nonFunc false)
                        else if j = 0 then some (.nonFunc false) else none⟩,
        .func 1) ∧
    promisify ⟨2, fun j => if j = 1 then some (.nonFunc false)
                  else if j = 0 then some (.nonFunc false) else none⟩ (.func 1) =
      .ok (⟨3, fun j => if j = 2 then some (.nonFunc false)
                        else if j = 1 then some (.nonFunc false)
                        else if j = 0 then some (.nonFunc false) else none⟩,
        .func 2) ∧
    PVal.func 2 ≠ PVal.func 1 :=
  ⟨rfl, rfl, rfl, by decide⟩

/-- C10 (amended): `promisify` is idempotent on every callable whose
own custom-promisify marker is absent or truthy — promisifying a second
time returns the very same function object, because the adapter's
marker then points at the returned function itself (and a marked
function's custom implementation is returned unchanged). A callable
with an own falsy marker is excluded: there the final descriptor copy
overwrites the adapter's marker. -/
theorem promisify_idempotent (h : FnHeap) (fid : Nat) (h' : FnHeap) (g : PVal)
    (hno : ∀ v, h.custom fid = some v → v.truthyP = true)
    (hp : promisify h (.func fid) = .ok (h', g)) :
    ∃ h2, promisify h' g = .ok (h2, g) := by
  rw [promisify_func_eq] at hp
  by_cases ht : (customRead h fid).truthyP = true
  · rw [if_pos ht] at hp
    cases hc : customRead h fid with
    | undef => rw [hc] at ht; simp [PVal.truthyP] at ht
    | nonFunc t => rw [hc] at hp; simp at hp
    | func cid =>
      rw [hc] at hp
      simp only [Except.ok.injEq, Prod.mk.injEq] at hp
      obtain ⟨hh, hg⟩ := hp
      subst hg
      refine ⟨{ h' with
        custom := fun j => if j = cid then some (.func cid) else h'.custom j }, ?_⟩
      rw [promisify_func_eq]
      have hcid : customRead h' cid = .func cid := by
        rw [← hh]
        simp [customRead]
      rw [hcid]
      rfl
  · rw [if_neg ht] at hp
    have hnone : h.custom fid = none := by
      cases hcc : h.custom fid with
      | none => rfl
      | some v =>
        have hv := hno v hcc
        have hcr : customRead h fid = v := by
          show ((h.custom fid).getD .undef : PVal) = v
          rw [hcc]
          rfl
        rw [hcr] at ht
        exact absurd hv ht
    rw [hnone] at hp
    simp only [Except.ok.injEq, Prod.mk.injEq] at hp
    obtain ⟨hh, hg⟩ := hp
    subst hg
    refine ⟨{ h' with
      custom := fun j => if j = h.next then some (.func h.next) else h'.custom j }, ?_⟩
    rw [promisify_func_eq]
    have hnext : customRead h' h.next = .func h.next := by
      rw [← hh]
      simp [customRead]
    rw [hnext]
    rfl

/-- C10 witness: promisifying a plain function (id 5, no own custom
marker) in a fresh heap yields function 0, and promisifying that
result again returns function 0 itself. -/
theorem promisify_idempotent_witness :
    (∀ v, (⟨0, fun _ => none⟩ : FnHeap).custom 5 = some v → v.truthyP = true) ∧
    promisify ⟨0, fun _ => none⟩ (.func 5) =
      .ok (⟨1, fun j => if j = 0 then some (.func 0) else none⟩, .func 0) ∧
    ∃ h2, promisify ⟨1, fun j => if j = 0 then some (.func 0) else none⟩ (.func 0) =
      .ok (h2, .func 0) :=
  ⟨fun _ hv => Option.noConfusion hv, rfl,
    promisify_idempotent ⟨0, fun _ => none⟩ 5 _ _
      (fun _ hv => Option.noConfusion hv) rfl⟩

theorem objAssign_of_not_mem (fields : List (String × JSVal)) (k : String)
    (v : JSVal) (h : fields.any (·.1 = k) = false) :
    objAssign fields k v = fields ++ [(k, v)] := by
  simp [objAssign, h]

theorem promisifyObj_eq_map (names : List String) (values : List JSVal)
    (h : names.Nodup) :
    promisifyObj names values =
      (List.range names.length).map
        (fun i => (names.getD i "", values.getD i .undef)) := by
  have aux : ∀ m, m ≤ names.length →
      (List.range m).foldl
        (fun fields i => objAssign fields (names.getD i "") (values.getD i .undef)) [] =
      (List.range m).map (fun i => (names.getD i "", values.getD i .undef)) := by
    intro m
    induction m with
    | zero => intro _; simp
    | succ n ih =>
      intro hm
      rw [List.range_succ, List.foldl_append, List.map_append, ih (by omega)]
      simp only [List.foldl_cons, List.foldl_nil, List.map_cons, List.map_nil]
      rw [objAssign_of_not_mem]
      rw [List.any_eq_false]
      intro x hx
      simp only [List.mem_map, List.mem_range] at hx
      obtain ⟨i, hi, rfl⟩ := hx
      have hn : n < names.length := hm
      have hi' : i < names.length := by omega
      simp only [decide_eq_true_eq]
      rw [List.getD_eq_getElem names "" hi', List.getD_eq_getElem names "" hn]
      intro heq
      rw [h.getElem_inj_iff] at heq
      omega
  unfold promisifyObj
  exact aux names.length le_rfl

/-- C1: when the injected callback fires with a non-truthy error, the
promise fulfills with an object mapping each declared result name to its
corresponding value in declared order — but only when declared names
exist and more than one value was produced; otherwise it fulfills with
the first produced value only, even if more were produced. -/
theorem promisify_callback_result_shape (names : List String) (err : JSVal)
    (values : List JSVal) (hErr : truthy err = false) (hNodup : names.Nodup) :
    (values.length > 1 →
      promisifyCallback (some names) err values =
        .fulfilled (.objV ((List.range names.length).map
          (fun i => (names.getD i "", values.getD i .undef))))) ∧
    (¬ values.length > 1 →
      promisifyCallback (some names) err values =
        .fulfilled (values.getD 0 .undef)) ∧
    promisifyCallback none err values = .fulfilled (values.getD 0 .undef) := by
  refine ⟨?_, ?_, ?_⟩
  · intro hlen
    rw [promisifyCallback, if_neg (by simp [hErr]), if_pos (by simp [hlen])]
    rw [show (some names).getD [] = names from rfl,
      promisifyObj_eq_map names values hNodup]
  · intro hlen
    rw [promisifyCallback, if_neg (by simp [hErr]), if_neg (by simp; omega)]
  · rw [promisifyCallback, if_neg (by simp [hErr]), if_neg (by simp)]

/-- C1 witness: declared names `['x','y']` with callback report
`(null, 1, 2)` fulfill with `{x: 1, y: 2}`. -/
theorem promisify_callback_result_witness :
    truthy .nullv = false ∧ ["x", "y"].Nodup ∧
    promisifyCallback (some ["x", "y"]) .nullv [.numV 1, .numV 2] =
      .fulfilled (.objV [("x", .numV 1), ("y", .numV 2)]) :=
  ⟨rfl, by decide,
    ((promisify_callback_result_shape ["x", "y"] .nullv [.numV 1, .numV 2]
      rfl (by decide)).1 (by norm_num)).trans rfl⟩

theorem signalsToNamesMapping_truthy_iff (sigs : Signals)
    (hName : ∀ p ∈ sigs, p.1 ≠ "") (n : Int) :
    truthyStrProp (signalsToNamesMapping sigs n) = true ↔
      ∃ name, (name, n) ∈ sigs := by
  unfold signalsToNamesMapping truthyStrProp
  constructor
  · cases hf : sigs.reverse.find? (·.2 = n) with
    | none => simp
    | some p =>
      intro _
      have hp : p.2 = n := by simpa using List.find?_some hf
      have hmem : p ∈ sigs := List.mem_reverse.mp (List.mem_of_find?_eq_some hf)
      exact ⟨p.1, by rw [← hp]; exact hmem⟩
  · rintro ⟨name, hmem⟩
    have hsome : (sigs.reverse.find? (·.2 = n)).isSome := by
      rw [List.find?_isSome]
      exact ⟨(name, n), List.mem_reverse.mpr hmem, by simp⟩
    obtain ⟨p, hp⟩ := Option.isSome_iff_exists.mp hsome
    rw [hp]
    have hmem' : p ∈ sigs := List.mem_reverse.mp (List.mem_of_find?_eq_some hp)
    simpa using hName p hmem'

/-- C3: `convertToValidSignal` returns a numeric input unchanged iff it
is a known signal number in the number-to-name map; a string input is
upper-cased (so lookup is case-insensitive and `"sigterm"` agrees with
`"SIGTERM"`) and the mapped number is returned when the name is known;
any other input, or any unmapped number or string, throws an
unknown-signal error carrying the offending value. Signal names are
nonempty and signal numbers positive, as supplied by the platform. -/
theorem convertToValidSignal_spec (sigs : Signals)
    (hName : ∀ p ∈ sigs, p.1 ≠ "") (hPos : ∀ p ∈ sigs, 0 < p.2) :
    (∀ n : Int, convertToValidSignal sigs (.num n) = .ok n ↔
      ∃ name, (name, n) ∈ sigs) ∧
    (∀ n : Int, (¬ ∃ name, (name, n) ∈ sigs) →
      convertToValidSignal sigs (.num n) = .error (.num n)) ∧
    (∀ (s₁ s₂ : String) (v : Int), jsToUpper s₁ = jsToUpper s₂ →
      (convertToValidSignal sigs (.str s₁) = .ok v ↔
        convertToValidSignal sigs (.str s₂) = .ok v)) ∧
    (∀ v : Int, convertToValidSignal sigs (.str "sigterm") = .ok v ↔
      convertToValidSignal sigs (.str "SIGTERM") = .ok v) ∧
    (∀ (s : String) (v : Int), signalsGet sigs (jsToUpper s) = some v →
      convertToValidSignal sigs (.str s) = .ok v) ∧
    (∀ s : String, signalsGet sigs (jsToUpper s) = none →
      convertToValidSignal sigs (.str s) = .error (.str s)) ∧
    (∀ t : Nat, convertToValidSignal sigs (.other t) = .error (.other t)) := by
  have hnum : ∀ n : Int, convertToValidSignal sigs (.num n) =
      (if truthyStrProp (signalsToNamesMapping sigs n) = true then .ok n
       else .error (.num n)) := fun _ => rfl
  have hstr : ∀ s : String, convertToValidSignal sigs (.str s) =
      (match signalsGet sigs (jsToUpper s) with
       | some v => if v != 0 then .ok v else .error (.str s)
       | none => .error (.str s)) := fun _ => rfl
  have hcaseless : ∀ (s₁ s₂ : String) (v : Int), jsToUpper s₁ = jsToUpper s₂ →
      (convertToValidSignal sigs (.str s₁) = .ok v ↔
        convertToValidSignal sigs (.str s₂) = .ok v) := by
    intro s₁ s₂ v hup
    rw [hstr s₁, hstr s₂, hup]
    cases hg : signalsGet sigs (jsToUpper s₂) with
    | some w => by_cases hw : (w != 0) = true <;> simp [hw]
    | none => simp
  refine ⟨?_, ?_, hcaseless,
    fun v => hcaseless "sigterm" "SIGTERM" v (by decide), ?_, ?_, ?_⟩
  · intro n
    rw [hnum]
    constructor
    · intro hok
      by_cases htr : truthyStrProp (signalsToNamesMapping sigs n) = true
      · exact (signalsToNamesMapping_truthy_iff sigs hName n).mp htr
      · rw [if_neg htr] at hok
        exact absurd hok (by simp)
    · intro hex
      rw [if_pos ((signalsToNamesMapping_truthy_iff sigs hName n).mpr hex)]
  · intro n hnex
    rw [hnum, if_neg]
    intro htr
    exact hnex ((signalsToNamesMapping_truthy_iff sigs hName n).mp htr)
  · intro s v hget
    rw [hstr, hget]
    show (if (v != 0) = true then Except.ok v else Except.error (SigVal.str s)) =
      Except.ok v
    have hget' : (sigs.find? (·.1 = (jsToUpper s))).map (·.2) = some v := hget
    obtain ⟨p, hp, hpv⟩ := Option.map_eq_some'.mp hget'
    have hmem : p ∈ sigs := List.mem_of_find?_eq_some hp
    have hv := hPos p hmem
    have hvne : (v != 0) = true := by
      simp only [bne_iff_ne, ne_eq]
      omega
    rw [if_pos hvne]
  · intro s hget
    rw [hstr, hget]
  · intro t
    rfl

/-- C3 witness: on the table `{SIGTERM: 15, SIGKILL: 9}`, a known
number is returned unchanged, `"sigterm"` and `"SIGTERM"` both map to
15, and 999999 fails carrying the offending value. -/
theorem convertToValidSignal_witness :
    (∀ p ∈ [("SIGTERM", (15 : Int)), ("SIGKILL", 9)], p.1 ≠ "") ∧
    (∀ p ∈ [("SIGTERM", (15 : Int)), ("SIGKILL", 9)], 0 < p.2) ∧
    convertToValidSignal [("SIGTERM", 15), ("SIGKILL", 9)] (.num 15) = .ok 15 ∧
    convertToValidSignal [("SIGTERM", 15), ("SIGKILL", 9)] (.str "sigterm") = .ok 15 ∧
    convertToValidSignal [("SIGTERM", 15), ("SIGKILL", 9)] (.num 999999) =
      .error (.num 999999) := by
  have h1 : ∀ p ∈ [("SIGTERM", (15 : Int)), ("SIGKILL", 9)], p.1 ≠ "" := by decide
  have h2 : ∀ p ∈ [("SIGTERM", (15 : Int)), ("SIGKILL", 9)], 0 < p.2 := by decide
  have hmain := convertToValidSignal_spec [("SIGTERM", 15), ("SIGKILL", 9)] h1 h2
  refine ⟨h1, h2, (hmain.1 15).mpr ⟨"SIGTERM", by simp⟩, ?_, ?_⟩
  · exact hmain.2.2.2.2.1 "sigterm" 15 rfl
  · refine hmain.2.1 999999 ?_
    rintro ⟨name, hmem⟩
    simp at hmem

theorem wrun_strong_spec {T : Type} (ops : List (WOp T)) :
    ∀ (c : Int) (a : Option T) (s : WeakRefState T),
      wellFormedFrom c ops = true → s.refCount = c →
      s.strong = (if 0 < c then a else none) →
      (wrun s ops).refCount = (specCountAnchor c a ops).1 ∧
      (wrun s ops).strong =
        (if 0 < (specCountAnchor c a ops).1 then (specCountAnchor c a ops).2
         else none) := by
  induction ops with
  | nil =>
    intro c a s _ h1 h2
    rw [show wrun s [] = s from rfl, show specCountAnchor c a [] = (c, a) from rfl,
      h1, h2]
    exact ⟨rfl, rfl⟩
  | cons op rest ih =>
    intro c a s hwf hc hstrong
    cases op with
    | inc d =>
      rw [show wrun s (.inc d :: rest) = wrun (incRef d s).1 rest from rfl,
        show specCountAnchor c a (.inc d :: rest) =
          specCountAnchor (c + 1) (if c = 0 then d else a) rest from rfl]
      refine ih (c + 1) (if c = 0 then d else a) (incRef d s).1 ?_ ?_ ?_
      · exact hwf
      · show s.refCount + 1 = c + 1
        omega
      · cases d with
        | some x =>
          show (if s.refCount + 1 = 1 then some x else s.strong) = _
          rw [hc]
          by_cases hc0 : c = 0
          · subst hc0
            rw [if_pos (by omega), if_pos (by omega), if_pos rfl]
          · rw [if_neg (by omega), if_neg hc0, hstrong]
            by_cases hcp : 0 < c
            · rw [if_pos hcp, if_pos (by omega)]
            · rw [if_neg hcp, if_neg (by omega)]
        | none =>
          show (if s.refCount + 1 = 1 then s.strong else s.strong) = _
          rw [ite_self, hstrong]
          by_cases hc0 : c = 0
          · subst hc0
            rw [if_neg (by omega), if_pos (by omega), if_pos rfl]
          · rw [if_neg hc0]
            by_cases hcp : 0 < c
            · rw [if_pos hcp, if_pos (by omega)]
            · rw [if_neg hcp, if_neg (by omega)]
    | dec =>
      have hwf' : 0 < c ∧ wellFormedFrom (c - 1) rest = true := by
        have : (decide (0 < c) && wellFormedFrom (c - 1) rest) = true := hwf
        simpa using this
      rw [show wrun s (.dec :: rest) = wrun (decRef s).1 rest from rfl,
        show specCountAnchor c a (.dec :: rest) =
          specCountAnchor (c - 1) a rest from rfl]
      refine ih (c - 1) a (decRef s).1 hwf'.2 ?_ ?_
      · show s.refCount - 1 = c - 1
        omega
      · show (if s.refCount - 1 = 0 then none else s.strong) = _
        by_cases hc1 : c - 1 = 0
        · rw [if_pos (by omega), if_neg (by omega)]
        · rw [if_neg (by omega), hstrong, if_pos (by omega),
            if_pos (by omega)]

/-- C9: assuming `decRef` is never invoked at count 0, every trace of
`incRef`/`decRef` operations preserves the data-model invariant: the
strong handle is non-null iff the reference count is positive and the
weak target was still alive at the most recent increment-from-zero
(`specCountAnchor`, computed from the trace per the spec's words). -/
theorem weakref_strong_invariant {T : Type} (ops : List (WOp T))
    (hwf : wellFormedFrom 0 ops = true) :
    (wrun WeakRefState.start ops).refCount = (specCountAnchor (0 : Int) (none : Option T) ops).1 ∧
    (wrun WeakRefState.start ops).strong =
      (if 0 < (specCountAnchor (0 : Int) (none : Option T) ops).1 then
        (specCountAnchor (0 : Int) (none : Option T) ops).2 else none) ∧
    ((wrun WeakRefState.start ops).strong.isSome = true ↔
      (0 < (wrun WeakRefState.start ops).refCount ∧
        (specCountAnchor (0 : Int) (none : Option T) ops).2.isSome = true)) := by
  have h := wrun_strong_spec ops 0 none WeakRefState.start hwf rfl (by simp [WeakRefState.start])
  refine ⟨h.1, h.2, ?_⟩
  rw [h.2, h.1]
  by_cases hcp : 0 < (specCountAnchor (0 : Int) (none : Option T) ops).1
  · rw [if_pos hcp]
    simp [hcp]
  · rw [if_neg hcp]
    simp [hcp]

/-- C9 witness: the trace `incRef` (target alive as value 7) then
`decRef` respects the caller contract, and the invariant theorem
applies to it. -/
theorem weakref_strong_invariant_witness :
    wellFormedFrom 0 [WOp.inc (some 7), WOp.dec] = true ∧
    (wrun WeakRefState.start [WOp.inc (some 7), WOp.dec]).refCount =
      (specCountAnchor (0 : Int) (none : Option Nat) [WOp.inc (some 7), WOp.dec]).1 ∧
    (wrun WeakRefState.start [WOp.inc (some 7), WOp.dec]).strong =
      (if 0 < (specCountAnchor (0 : Int) (none : Option Nat) [WOp.inc (some 7), WOp.dec]).1 then
        (specCountAnchor (0 : Int) (none : Option Nat) [WOp.inc (some 7), WOp.dec]).2 else none) :=
  ⟨by decide,
    (weakref_strong_invariant [WOp.inc (some 7), WOp.dec] (by decide)).1,
    (weakref_strong_invariant [WOp.inc (some 7), WOp.dec] (by decide)).2.1⟩

theorem lazyGetBody_preserves (m : Module) (lv : JSVal) (s : LazyState)
    (k : String) :
    (lazyGetBody m lv s k).2.modCache = s.modCache ∧
    (lazyGetBody m lv s k).2.attempts = s.attempts := by
  cases lv <;> exact ⟨rfl, rfl⟩

theorem lazyRead_dataProp (loader : Nat → Except JSVal Module)
    (s : LazyState) (k : String) (v : JSVal) (hs : s.slots k = .dataProp v) :
    lazyRead loader s k = (.ok v, s) := by
  unfold lazyRead
  rw [hs]

theorem lazyRead_accessor_cached (loader : Nat → Except JSVal Module)
    (s : LazyState) (k : String) (lv : JSVal) (m : Module)
    (hs : s.slots k = .accessor lv) (hm : s.modCache = some m) :
    lazyRead loader s k = lazyGetBody m lv s k := by
  unfold lazyRead
  rw [hs, hm]

theorem lazyRead_accessor_uncached (loader : Nat → Except JSVal Module)
    (s : LazyState) (k : String) (lv : JSVal)
    (hs : s.slots k = .accessor lv) (hm : s.modCache = none) :
    lazyRead loader s k =
      (match loader s.attempts with
       | .error e => (.error e, { s with attempts := s.attempts + 1 })
       | .ok m =>
         lazyGetBody m lv { s with modCache := some m, attempts := s.attempts + 1 } k) := by
  unfold lazyRead
  rw [hs, hm]

theorem lazyGetBody_not_undef (m : Module) (lv : JSVal) (s : LazyState)
    (k : String) (h : lv ≠ .undef) : lazyGetBody m lv s k = (.ok lv, s) := by
  cases lv with
  | undef => exact absurd rfl h
  | nullv => rfl
  | boolV b => rfl
  | numV n => rfl
  | strV t => rfl
  | objV fs => rfl

theorem lazyRead_attempts_inv (M : Module) (s : LazyState) (k : String)
    (h : s.attempts = if s.modCache.isSome then 1 else 0) :
    (lazyRead (fun _ => .ok M) s k).2.attempts =
      if (lazyRead (fun _ => .ok M) s k).2.modCache.isSome then 1 else 0 := by
  cases hs : s.slots k with
  | dataProp v => rw [lazyRead_dataProp _ s k v hs]; exact h
  | accessor lv =>
    cases hm : s.modCache with
    | some m =>
      rw [lazyRead_accessor_cached _ s k lv m hs hm]
      have hp := lazyGetBody_preserves m lv s k
      rw [hp.1, hp.2]
      exact h
    | none =>
      rw [lazyRead_accessor_uncached _ s k lv hs hm]
      dsimp only
      have hp := lazyGetBody_preserves M lv
        { s with modCache := some M, attempts := s.attempts + 1 } k
      rw [hp.1, hp.2]
      rw [hm] at h
      simp at h
      simp [h]

theorem lazyRunReads_attempts (M : Module) (reads : List String) :
    ∀ s : LazyState, s.attempts = (if s.modCache.isSome then 1 else 0) →
      (lazyRunReads (fun _ => .ok M) s reads).attempts =
        (if (lazyRunReads (fun _ => .ok M) s reads).modCache.isSome then 1 else 0) := by
  induction reads with
  | nil => intro s h; exact h
  | cons k rest ih =>
    intro s h
    exact ih _ (lazyRead_attempts_inv M s k h)

theorem lazyRead_twice (M : Module) (s : LazyState) (k : String) :
    (lazyRead (fun _ => .ok M) ((lazyRead (fun _ => .ok M) s k).2) k).1 =
      (lazyRead (fun _ => .ok M) s k).1 := by
  cases hs : s.slots k with
  | dataProp v =>
    rw [lazyRead_dataProp _ s k v hs]
    dsimp only
    rw [lazyRead_dataProp _ s k v hs]
  | accessor lv =>
    cases hm : s.modCache with
    | some m =>
      rw [lazyRead_accessor_cached _ s k lv m hs hm]
      by_cases hlv : lv = JSVal.undef
      · subst hlv
        rw [show lazyGetBody m .undef s k =
          (.ok (moduleGet m k),
           { s with slots := fun q => if q = k then .dataProp (moduleGet m k) else s.slots q })
          from rfl]
        dsimp only
        rw [lazyRead_dataProp _ _ k (moduleGet m k) (by simp)]
      · rw [lazyGetBody_not_undef m lv s k hlv]
        dsimp only
        rw [lazyRead_accessor_cached _ s k lv m hs hm,
          lazyGetBody_not_undef m lv s k hlv]
    | none =>
      rw [lazyRead_accessor_uncached _ s k lv hs hm]
      dsimp only
      by_cases hlv : lv = JSVal.undef
      · subst hlv
        rw [show lazyGetBody M .undef
            { s with modCache := some M, attempts := s.attempts + 1 } k =
          (.ok (moduleGet M k),
           { slots := fun q => if q = k then .dataProp (moduleGet M k) else s.slots q,
             modCache := some M, attempts := s.attempts + 1 })
          from rfl]
        dsimp only
        rw [lazyRead_dataProp _ _ k (moduleGet M k) (by simp)]
      · rw [lazyGetBody_not_undef M lv
          { s with modCache := some M, attempts := s.attempts + 1 } k hlv]
        dsimp only
        rw [lazyRead_accessor_cached (fun _ => .ok M)
          { s with modCache := some M, attempts := s.attempts + 1 } k lv M hs rfl,
          lazyGetBody_not_undef M lv
            { s with modCache := some M, attempts := s.attempts + 1 } k hlv]

/-- C4: with a loader that resolves to module `M`, reading a registered
key twice (after any prior reads) returns the identical value, the
loader runs at most once per registration, and in the concrete scenario
`M = {foo: 1, bar: 2}` reading `bar` first loads once and returns 2,
after which reading `foo` performs no further load and returns 1. -/
theorem defineLazyProperties_memoization (M : Module) (reads : List String)
    (k : String) :
    (lazyRead (fun _ => .ok M)
        ((lazyRead (fun _ => .ok M) (lazyRunReads (fun _ => .ok M) LazyState.init reads) k).2) k).1 =
      (lazyRead (fun _ => .ok M) (lazyRunReads (fun _ => .ok M) LazyState.init reads) k).1 ∧
    (lazyRunReads (fun _ => .ok M) LazyState.init reads).attempts ≤ 1 ∧
    (lazyRead (fun _ => .ok [("foo", .numV 1), ("bar", .numV 2)])
      LazyState.init "bar").1 = .ok (.numV 2) ∧
    (lazyRead (fun _ => .ok [("foo", .numV 1), ("bar", .numV 2)])
      LazyState.init "bar").2.attempts = 1 ∧
    (lazyRead (fun _ => .ok [("foo", .numV 1), ("bar", .numV 2)])
      (lazyRead (fun _ => .ok [("foo", .numV 1), ("bar", .numV 2)])
        LazyState.init "bar").2 "foo").1 = .ok (.numV 1) ∧
    (lazyRead (fun _ => .ok [("foo", .numV 1), ("bar", .numV 2)])
      (lazyRead (fun _ => .ok [("foo", .numV 1), ("bar", .numV 2)])
        LazyState.init "bar").2 "foo").2.attempts = 1 := by
  refine ⟨lazyRead_twice M _ k, ?_, rfl, rfl, rfl, rfl⟩
  rw [lazyRunReads_attempts M reads LazyState.init rfl]
  split <;> omega

/-- C8: if the loader throws on the first read of a lazily defined
property (both `defineLazyProperties` and
`defineReplaceableLazyAttribute`), the exception propagates unchanged
to the reader, no value is cached and the accessor state is untouched
(only the attempt counter moves), and a later read retries the load:
when the retry resolves to `M` the module is cached and the key's value
is returned. -/
theorem lazy_loader_failure_propagates :
    (∀ (loader : Nat → Except JSVal Module) (s : LazyState) (k : String)
        (lv e : JSVal) (M : Module),
      s.slots k = .accessor lv → s.modCache = none →
      loader s.attempts = .error e →
        lazyRead loader s k = (.error e, { s with attempts := s.attempts + 1 }) ∧
        (loader (s.attempts + 1) = .ok M →
          (lazyRead loader { s with attempts := s.attempts + 1 } k).2.modCache = some M ∧
          (lazyRead loader { s with attempts := s.attempts + 1 } k).2.attempts = s.attempts + 2 ∧
          (lv = .undef →
            (lazyRead loader { s with attempts := s.attempts + 1 } k).1 =
              .ok (moduleGet M k)))) ∧
    (∀ (loader : Nat → Except JSVal Module) (s : ReplState) (k : String)
        (e : JSVal) (M : Module),
      (s.slots k).setterCalled = false → s.modCache = none →
      loader s.attempts = .error e →
        replRead loader s k = (.error e, { s with attempts := s.attempts + 1 }) ∧
        (loader (s.attempts + 1) = .ok M →
          (replRead loader { s with attempts := s.attempts + 1 } k).2.modCache = some M ∧
          (replRead loader { s with attempts := s.attempts + 1 } k).2.attempts = s.attempts + 2 ∧
          (isNullish (s.slots k).value = true →
            (replRead loader { s with attempts := s.attempts + 1 } k).1 =
              .ok (moduleGet M k)))) := by
  constructor
  · intro loader s k lv e M hs hm hl
    constructor
    · rw [lazyRead_accessor_uncached loader s k lv hs hm, hl]
    · intro hok
      have hread : lazyRead loader { s with attempts := s.attempts + 1 } k =
          lazyGetBody M lv
            { s with modCache := some M, attempts := s.attempts + 2 } k := by
        rw [lazyRead_accessor_uncached loader
          { s with attempts := s.attempts + 1 } k lv hs hm]
        rw [show ({ s with attempts := s.attempts + 1 } : LazyState).attempts =
          s.attempts + 1 from rfl, hok]
      rw [hread]
      have hp := lazyGetBody_preserves M lv
        { s with modCache := some M, attempts := s.attempts + 2 } k
      refine ⟨hp.1.trans rfl, hp.2.trans rfl, ?_⟩
      intro hlv
      subst hlv
      rfl
  · intro loader s k e M hset hm hl
    have hstep : ∀ (s' : ReplState), s'.slots k = s.slots k → s'.modCache = none →
        replRead loader s' k =
          (match loader s'.attempts with
           | .error e => (.error e, { s' with attempts := s'.attempts + 1 })
           | .ok m => replGetBody m (s.slots k)
               { s' with modCache := some m, attempts := s'.attempts + 1 } k) := by
      intro s' hsk hm'
      unfold replRead
      rw [hsk, hset, hm']
      simp
    constructor
    · rw [hstep s rfl hm, hl]
    · intro hok
      have hread : replRead loader { s with attempts := s.attempts + 1 } k =
          replGetBody M (s.slots k)
            { s with modCache := some M, attempts := s.attempts + 2 } k := by
        rw [hstep { s with attempts := s.attempts + 1 } rfl hm]
        rw [show ({ s with attempts := s.attempts + 1 } : ReplState).attempts =
          s.attempts + 1 from rfl, hok]
      rw [hread]
      unfold replGetBody
      by_cases hn : isNullish (s.slots k).value = true
      · rw [if_pos hn]
        exact ⟨rfl, rfl, fun _ => rfl⟩
      · rw [if_neg hn]
        exact ⟨rfl, rfl, fun hx => absurd hx hn⟩

/-- C8 witness: a loader that throws `"boom"` on its first attempt and
then resolves to `{foo: 1}` — the first read of `foo` propagates the
exception, the retry loads the module and returns 1. -/
theorem lazy_loader_failure_witness :
    LazyState.init.slots "foo" = .accessor .undef ∧
    LazyState.init.modCache = none ∧
    (fun n => if n = 0 then .error (.strV "boom") else .ok [("foo", JSVal.numV 1)])
      LazyState.init.attempts = Except.error (JSVal.strV "boom") ∧
    lazyRead (fun n => if n = 0 then .error (.strV "boom") else .ok [("foo", JSVal.numV 1)])
      LazyState.init "foo" =
      (.error (.strV "boom"), { LazyState.init with attempts := LazyState.init.attempts + 1 }) ∧
    (lazyRead (fun n => if n = 0 then .error (.strV "boom") else .ok [("foo", JSVal.numV 1)])
      { LazyState.init with attempts := LazyState.init.attempts + 1 } "foo").1 =
      .ok (moduleGet [("foo", JSVal.numV 1)] "foo") := by
  have h := (lazy_loader_failure_propagates.1
    (fun n => if n = 0 then .error (.strV "boom") else .ok [("foo", JSVal.numV 1)])
    LazyState.init "foo" .undef (.strV "boom") [("foo", JSVal.numV 1)]
    rfl rfl rfl)
  exact ⟨rfl, rfl, rfl, h.1, (h.2 rfl).2.2 rfl⟩

theorem depInvoke_gate_false (codes : Nat → Option String) (s : DepState)
    (i : Nat) (g : Bool) (h : (!s.warned i && g) = false) :
    depInvoke codes s i g = (s, []) := by
  unfold depInvoke
  rw [h]
  rfl

theorem depInvoke_eq_of_gate (codes : Nat → Option String) (s : DepState)
    (i : Nat) (g : Bool) (hg : (!s.warned i && g) = true) :
    depInvoke codes s i g =
      (match codes i with
       | some c =>
         if c ∈ s.codesWarned then
           (⟨fun j => if j = i then true else s.warned j, s.codesWarned⟩, [])
         else
           (⟨fun j => if j = i then true else s.warned j, c :: s.codesWarned⟩,
             [(i, some c)])
       | none =>
         (⟨fun j => if j = i then true else s.warned j, s.codesWarned⟩,
           [(i, none)])) := by
  unfold depInvoke
  rw [hg]
  rfl

theorem depRun_cons (codes : Nat → Option String) (s : DepState) (i : Nat)
    (g : Bool) (rest : List (Nat × Bool)) :
    depRun codes s ((i, g) :: rest) =
      ((depRun codes (depInvoke codes s i g).1 rest).1,
        (depInvoke codes s i g).2 ++ (depRun codes (depInvoke codes s i g).1 rest).2) :=
  rfl

theorem depRun_code_count (codes : Nat → Option String) (c : String) :
    ∀ (tr : List (Nat × Bool)) (s : DepState),
      ((depRun codes s tr).2.countP (fun e => e.2 == some c)) ≤
        (if c ∈ s.codesWarned then 0 else 1) := by
  intro tr
  induction tr with
  | nil =>
    intro s
    show (List.countP _ []) ≤ _
    rw [List.countP_nil]
    split <;> omega
  | cons ig rest ih =>
    intro s
    obtain ⟨i, g⟩ := ig
    rw [depRun_cons, List.countP_append]
    by_cases hg : (!s.warned i && g) = true
    · rw [depInvoke_eq_of_gate codes s i g hg]
      cases hc : codes i with
      | none =>
        dsimp only
        rw [show List.countP (fun e => e.2 == some c)
          [((i : Nat), (none : Option String))] = 0 from rfl, Nat.zero_add]
        exact ih ⟨fun j => if j = i then true else s.warned j, s.codesWarned⟩
      | some c' =>
        dsimp only
        by_cases hmem : c' ∈ s.codesWarned
        · rw [if_pos hmem]
          dsimp only
          rw [List.countP_nil, Nat.zero_add]
          exact ih ⟨fun j => if j = i then true else s.warned j, s.codesWarned⟩
        · rw [if_neg hmem]
          dsimp only
          have ht := ih ⟨fun j => if j = i then true else s.warned j, c' :: s.codesWarned⟩
          dsimp only at ht
          by_cases hcc : c' = c
          · subst hcc
            rw [show List.countP (fun e => e.2 == some c') [(i, some c')] = 1 from by
              simp [List.countP_cons]]
            rw [if_pos (List.mem_cons_self c' _)] at ht
            rw [if_neg hmem]
            omega
          · rw [show List.countP (fun e => e.2 == some c) [(i, some c')] = 0 from by
              simp [List.countP_cons, hcc], Nat.zero_add]
            by_cases hcm : c ∈ s.codesWarned
            · rw [if_pos (List.mem_cons_of_mem _ hcm)] at ht
              rw [if_pos hcm]
              omega
            · have hnm : c ∉ c' :: s.codesWarned := by
                intro hx
                rcases List.mem_cons.mp hx with hx | hx
                · exact hcc hx.symm
                · exact hcm hx
              rw [if_neg hnm] at ht
              rw [if_neg hcm]
              omega
    · rw [depInvoke_gate_false codes s i g (by simpa using hg)]
      dsimp only
      rw [List.countP_nil, Nat.zero_add]
      exact ih s

theorem depRun_wrapper_count (codes : Nat → Option String) (w : Nat) :
    ∀ (tr : List (Nat × Bool)) (s : DepState),
      ((depRun codes s tr).2.countP (fun e => e.1 == w)) ≤
        (if s.warned w then 0 else 1) := by
  intro tr
  induction tr with
  | nil =>
    intro s
    rw [show (depRun codes s []).2 = [] from rfl, List.countP_nil]
    split <;> omega
  | cons ig rest ih =>
    intro s
    obtain ⟨i, g⟩ := ig
    rw [depRun_cons, List.countP_append]
    by_cases hg : (!s.warned i && g) = true
    · have hw : s.warned i = false := by
        revert hg
        cases s.warned i <;> simp
      rw [depInvoke_eq_of_gate codes s i g hg]
      have htail : ∀ cw : List String,
          (depRun codes
            (⟨fun j => if j = i then true else s.warned j, cw⟩ : DepState) rest).2.countP
              (fun e => e.1 == w) ≤
            (if (if w = i then true else s.warned w) = true then 0 else 1) := by
        intro cw
        exact ih ⟨fun j => if j = i then true else s.warned j, cw⟩
      by_cases hiw : w = i
      · subst hiw
        have ht0 : ∀ cw : List String,
            (depRun codes
              (⟨fun j => if j = w then true else s.warned j, cw⟩ : DepState) rest).2.countP
                (fun e => e.1 == w) = 0 := by
          intro cw
          have h := htail cw
          rw [if_pos rfl, if_pos rfl] at h
          omega
        rw [if_neg (by rw [hw]; exact Bool.false_ne_true)]
        cases hc : codes w with
        | none =>
          dsimp only
          rw [ht0 s.codesWarned]
          rw [show List.countP (fun e => e.1 == w) [(w, (none : Option String))] = 1 from by
            simp [List.countP_cons]]
        | some c' =>
          dsimp only
          by_cases hmem : c' ∈ s.codesWarned
          · rw [if_pos hmem]
            dsimp only
            rw [List.countP_nil, ht0 s.codesWarned]
            omega
          · rw [if_neg hmem]
            dsimp only
            rw [ht0 (c' :: s.codesWarned)]
            rw [show List.countP (fun e => e.1 == w) [(w, some c')] = 1 from by
              simp [List.countP_cons]]
      · have hine : (i == w) = false := by
          simp only [beq_eq_false_iff_ne, ne_eq]
          exact fun h => hiw h.symm
        have htail' : ∀ cw : List String,
            (depRun codes
              (⟨fun j => if j = i then true else s.warned j, cw⟩ : DepState) rest).2.countP
                (fun e => e.1 == w) ≤ (if s.warned w = true then 0 else 1) := by
          intro cw
          have h := htail cw
          rw [if_neg hiw] at h
          exact h
        cases hc : codes i with
        | none =>
          dsimp only
          rw [show List.countP (fun e => e.1 == w) [(i, (none : Option String))] = 0 from by
            simp [List.countP_cons, hine], Nat.zero_add]
          exact htail' s.codesWarned
        | some c' =>
          dsimp only
          by_cases hmem : c' ∈ s.codesWarned
          · rw [if_pos hmem]
            dsimp only
            rw [List.countP_nil, Nat.zero_add]
            exact htail' s.codesWarned
          · rw [if_neg hmem]
            dsimp only
            rw [show List.countP (fun e => e.1 == w) [(i, some c')] = 0 from by
              simp [List.countP_cons, hine], Nat.zero_add]
            exact htail' (c' :: s.codesWarned)
    · rw [depInvoke_gate_false codes s i g (by simpa using hg)]
      dsimp only
      rw [List.countP_nil, Nat.zero_add]
      exact ih s

/-- C2: over any invocation trace from process start, warnings carrying
a given code are emitted at most once process-wide (across all wrappers
sharing it), any single wrapper — in particular a codeless one — warns
at most once; concretely, a wrapper with code "X1" invoked 5 times
emits exactly one warning, and a second independent wrapper with code
"X1" then emits zero further warnings. -/
theorem deprecate_warns_once (codes : Nat → Option String) (c : String)
    (w : Nat) (tr : List (Nat × Bool)) :
    ((depRun codes DepState.init tr).2.countP (fun e => e.2 == some c)) ≤ 1 ∧
    ((depRun codes DepState.init tr).2.countP (fun e => e.1 == w)) ≤ 1 ∧
    (depRun (fun _ => some "X1") DepState.init
      [(0, true), (0, true), (0, true), (0, true), (0, true)]).2 =
      [(0, some "X1")] ∧
    (depRun (fun _ => some "X1") DepState.init
      [(0, true), (0, true), (0, true), (0, true), (0, true), (1, true)]).2 =
      [(0, some "X1")] := by
  refine ⟨?_, ?_, rfl, rfl⟩
  · have h := depRun_code_count codes c tr DepState.init
    simpa [DepState.init] using h
  · have h := depRun_wrapper_count codes w tr DepState.init
    simpa [DepState.init] using h

end NodeUtil
